import Mathlib

/-!
Verification of the RequireJS-to-ES6 conversion script (`convert.py`).

The conversion engine works on plain text via Python regular expressions.
We embed it shallowly: text is `List Char`, each regex of the source is
rendered as a deterministic matcher (every pattern in the source only
combines greedy/lazy quantifiers over pairwise disjoint character classes,
so backtracking never changes the accepted span), `re.search` /
`re.findall` / `re.sub` become explicit left-to-right scanners, and
`str.replace` becomes a left-to-right replace-all.  Character classes
`\s` and `\w` are embedded with their ASCII meaning, which is exact on
all inputs considered here.
-/

namespace ConvertEs6

abbrev Chars := List Char

/-- ASCII embedding of the regex class `\s` (Python: space, tab, LF, CR, VT, FF). -/
def spaceB (ch : Char) : Bool :=
  ch == ' ' || ch == '\t' || ch == '\n' || ch == '\r' || ch == '\x0b' || ch == '\x0c'

/-- ASCII embedding of the regex class `\w` and of `[a-zA-Z0-9_]`. -/
def wordB (ch : Char) : Bool :=
  ch.isAlpha || ch.isDigit || ch == '_'

/-- Quote characters accepted by the dependency regex `["\']`. -/
def quoteB (ch : Char) : Bool :=
  ch == '"' || ch == '\x27'

/-- Literal-prefix test used by every matcher (regex literal fragments). -/
def chPfx : Chars → Chars → Bool
  | [], _ => true
  | _ :: _, [] => false
  | p :: ps, l :: ls => p == l && chPfx ps ls

/-- `containsSub p l` is true when `p` occurs as a contiguous substring of `l`. -/
def containsSub (p : Chars) : Chars → Bool
  | [] => chPfx p []
  | l@(_ :: t) => chPfx p l || containsSub p t

/-- `countSub p l`: number of positions of `l` at which `p` starts. -/
def countSub (p : Chars) : Chars → Nat
  | [] => if chPfx p [] then 1 else 0
  | l@(_ :: t) => (if chPfx p l then 1 else 0) + countSub p t

/-- Fuel-driven core of Python `str.replace(old, "")`: non-overlapping
left-to-right removal of every occurrence.  With fuel at least the length
of the text the fuel never runs out. -/
def replGo (pat : Chars) : Nat → Chars → Chars
  | 0, s => s
  | f + 1, s =>
    if !pat.isEmpty && chPfx pat s then replGo pat f (s.drop pat.length)
    else
      match s with
      | [] => []
      | x :: t => x :: replGo pat f t

/-- Python `text.replace(pat, "")`. -/
def pyReplace (pat s : Chars) : Chars := replGo pat s.length s


/-! ### `remove_comments`

Source regex: `\/\/.*?[\n\r]` with `re.DOTALL`.  With DOTALL the lazy
`.*?` runs from a `//` up to the first `\n` or `\r`, which is part of the
match.  `findall` scans left to right without overlap; the source then
calls `text.replace(match, "")` for every match found. -/

/-- Splits a text at its first `\n`/`\r`: the lazy `.*?[\n\r]` body. -/
def breakAtTerm : Chars → Option (Chars × Char × Chars)
  | [] => none
  | x :: r =>
    if x == '\n' || x == '\r' then some ([], x, r)
    else
      match breakAtTerm r with
      | some (u, c, v) => some (x :: u, c, v)
      | none => none

/-- Fuel-driven scanner for `re.findall(r"\/\/.*?[\n\r]", text)`:
at each position a match needs `//` then a terminated run; on failure the
scan advances one character, on success it continues after the match. -/
def fcGo : Nat → Chars → List Chars
  | 0, _ => []
  | _ + 1, [] => []
  | _ + 1, [_] => []
  | f + 1, x :: y :: rest =>
    if x == '/' && y == '/' then
      match breakAtTerm rest with
      | some (u, c, v) => (x :: y :: (u ++ [c])) :: fcGo f v
      | none => fcGo f (y :: rest)
    else fcGo f (y :: rest)

def findallComments (text : Chars) : List Chars := fcGo text.length text

/-- `remove_comments` from the source: find all comment matches, then
replace each match string globally by the empty string. -/
def remove_comments (text : Chars) : Chars :=
  (findallComments text).foldl (fun acc m => pyReplace m acc) text


/-! ### `remove_metacatui_root`

Source regex: `["\']?\s*\+?\s*MetacatUI\.root\s*\+?\s*["\']?` (DOTALL is
irrelevant: no dot).  Every optional/greedy piece ranges over a character
set disjoint from the following literal, so the match is deterministic
maximal munch around the mandatory literal `MetacatUI.root`. -/

/-- Deterministic matcher for the `MetacatUI.root` pattern at the current
position; returns the rest of the text after the full match. -/
def tryMatchMC (s : Chars) : Option Chars :=
  let a1 := match s with
    | q :: r => if quoteB q then r else s
    | [] => s
  let a2 := a1.dropWhile spaceB
  let a3 := match a2 with
    | '+' :: r => r
    | _ => a2
  let a4 := a3.dropWhile spaceB
  if chPfx (("MetacatUI.root").data) a4 then
    let b0 := a4.drop 14
    let b1 := b0.dropWhile spaceB
    let b2 := match b1 with
      | '+' :: r => r
      | _ => b1
    let b3 := b2.dropWhile spaceB
    let b4 := match b3 with
      | q :: r => if quoteB q then r else b3
      | [] => b3
    some b4
  else none

/-- `re.findall` scan for the `MetacatUI.root` pattern (fuel-driven;
fuel = text length suffices because every match is nonempty). -/
def findallMC : Nat → Chars → List Chars
  | 0, _ => []
  | _ + 1, [] => []
  | f + 1, s@(_ :: t) =>
    match tryMatchMC s with
    | some rest => (s.take (s.length - rest.length)) :: findallMC f rest
    | none => findallMC f t

/-- `remove_metacatui_root` from the source: find all matches, then
replace each match string globally by the empty string. -/
def remove_metacatui_root (text : Chars) : Chars :=
  (findallMC text.length text).foldl (fun acc m => pyReplace m acc) text

/-! ### `parse_dependencies` / `parse_parameters` -/

/-- Lazy body of `["\'](.+?)["\']`: accumulate non-newline characters
until the next quote character closes the group. -/
def qBody (acc : Chars) : Chars → Option (Chars × Chars)
  | [] => none
  | y :: r =>
    if quoteB y then some (acc.reverse, r)
    else if y == '\n' then none
    else qBody (y :: acc) r

/-- Matcher for `["\'](.+?)["\']` at the current position: an opening
quote, at least one non-newline character, then any closing quote. -/
def tryMatchQ : Chars → Option (Chars × Chars)
  | [] => none
  | q :: r =>
    if quoteB q then
      match r with
      | [] => none
      | x :: r2 => if x == '\n' then none else qBody [x] r2
    else none

/-- `re.findall(r'["\'](.+?)["\']', s)` (group 1 of each match). -/
def findallQ : Nat → Chars → List Chars
  | 0, _ => []
  | _ + 1, [] => []
  | f + 1, s@(_ :: t) =>
    match tryMatchQ s with
    | some (content, rest) => content :: findallQ f rest
    | none => findallQ f t

/-- `parse_dependencies`: strip comments and `MetacatUI.root`, then
collect every quoted token. -/
def parse_dependencies (dependencies : Chars) : List Chars :=
  let cleaned := remove_metacatui_root (remove_comments dependencies)
  findallQ cleaned.length cleaned

/-- Python `str.split(sep)` for a single separator character. -/
def pySplitGo (sep : Char) (acc : Chars) : Chars → List Chars
  | [] => [acc.reverse]
  | x :: t =>
    if x == sep then acc.reverse :: pySplitGo sep [] t
    else pySplitGo sep (x :: acc) t

def pySplit (sep : Char) (l : Chars) : List Chars := pySplitGo sep [] l

/-- Python `str.strip()` (ASCII whitespace). -/
def pyStrip (l : Chars) : Chars :=
  (((l.dropWhile spaceB).reverse).dropWhile spaceB).reverse

/-- `parse_parameters`: strip comments, split on commas, strip each. -/
def parse_parameters (parameters : Chars) : List Chars :=
  (pySplit ',' (remove_comments parameters)).map pyStrip

/-! ### `is_text` -/

/-- `pathlib` final path component (`Path(dep).name` for the inputs at
hand: last nonempty `/`-separated component). -/
def pathName (dep : Chars) : Chars :=
  (((pySplit '/' dep).filter (fun comp => !comp.isEmpty)).getLast?).getD []

/-- `pathlib` suffix rule: the part of the name from its last dot,
provided that dot is neither the first nor the last character. -/
def pySuffix (name : Chars) : Chars :=
  let j := name.reverse.findIdx (fun ch => ch == '.')
  if j < name.length then
    let i := name.length - 1 - j
    if 0 < i ∧ i < name.length - 1 then name.drop i else []
  else []

/-- `is_text` from the source: extension of the dependency is one of the
known text extensions. -/
def is_text (dep : Chars) : Bool :=
  [(".js").data, (".html").data, (".css").data, (".json").data,
    (".txt").data].contains (pySuffix (pathName dep))

/-! ### Header extraction

Source regex: `define\s*\(\s*\[([^\]]+)\]\s*,\s*function\s*\(([^)]+)\)\s*\{`
with DOTALL (irrelevant: negated classes already cross lines).  The two
`[^X]+` groups are forced runs up to the first `X`; every `\s*` borders a
non-space literal, so matching is deterministic. -/

/-- Deterministic matcher for the `define(...)` header at the current
position.  Returns (matched span, raw dependency text, raw parameter
text). -/
def tryMatchHeader (s : Chars) : Option (Chars × Chars × Chars) :=
  if chPfx (("define").data) s then
    match (s.drop 6).dropWhile spaceB with
    | '(' :: t1 =>
      match t1.dropWhile spaceB with
      | '[' :: t2 =>
        let deps := t2.takeWhile (fun ch => !(ch == ']'))
        if deps.isEmpty then none
        else
          match t2.dropWhile (fun ch => !(ch == ']')) with
          | ']' :: t3 =>
            match t3.dropWhile spaceB with
            | ',' :: t4 =>
              let t5 := t4.dropWhile spaceB
              if chPfx (("function").data) t5 then
                match (t5.drop 8).dropWhile spaceB with
                | '(' :: t6 =>
                  let params := t6.takeWhile (fun ch => !(ch == ')'))
                  if params.isEmpty then none
                  else
                    match t6.dropWhile (fun ch => !(ch == ')')) with
                    | ')' :: t7 =>
                      match t7.dropWhile spaceB with
                      | '\x7b' :: t8 =>
                        some (s.take (s.length - t8.length), deps, params)
                      | _ => none
                    | _ => none
                | _ => none
              else none
            | _ => none
          | _ => none
      | _ => none
    | _ => none
  else none

/-- `re.search` scan for the header pattern (leftmost match). -/
def searchHeader : Chars → Option (Chars × Chars × Chars)
  | [] => tryMatchHeader []
  | s@(_ :: t) =>
    match tryMatchHeader s with
    | some r => some r
    | none => searchHeader t

/-- Result of `find_require_define_text` (`dmatch` embeds the dict key
`"match"`, a Lean keyword). -/
structure DefineResult where
  dmatch : Chars
  dependencies : List Chars
  parameters : List Chars
deriving DecidableEq

/-- `find_require_define_text` from the source. -/
def find_require_define_text (js_text : Chars) : Option DefineResult :=
  match searchHeader js_text with
  | none => none
  | some (m, deps, params) =>
    some ⟨m, parse_dependencies deps, parse_parameters params⟩

/-! ### `write_import_statements` -/

structure ImportsResult where
  text : Chars
  ignored_dependencies : List (Option Chars)
  ignored_parameters : List (Option Chars)
deriving DecidableEq

/-- One step of the loop body in `write_import_statements`.  Note the
faithful embedding of the source's slip: when one list is exhausted the
code appends the value it has just found to be `None` (`dep` resp.
`param`) to `ignored_deps` resp. `ignored_params`. -/
def importStep (dependencies parameters : List Chars)
    (acc : ImportsResult) (i : Nat) : ImportsResult :=
  match dependencies.get? i, parameters.get? i with
  | none, _ =>
    { acc with ignored_dependencies := acc.ignored_dependencies ++ [none] }
  | some _, none =>
    { acc with ignored_parameters := acc.ignored_parameters ++ [none] }
  | some dep, some param =>
    let dep2 :=
      if is_text dep then
        if chPfx (("text!").data) dep then dep.drop 5 else dep
      else dep
    { acc with text := acc.text ++ (("import ").data ++ param
        ++ (" from \x27").data ++ dep2 ++ ("\x27;\n").data) }

/-- `write_import_statements` from the source: iterate
`range(max(len(dependencies), len(parameters)))`. -/
def write_import_statements (dependencies parameters : List Chars) :
    ImportsResult :=
  (List.range (max dependencies.length parameters.length)).foldl
    (importStep dependencies parameters) ⟨[], [], []⟩

/-! ### Footer extraction

`standardize_return_text` uses `@class\s+(\w+)` (re.search) and
`return\s+?Backbone\.(.*?)extend\(` (re.search guard, then re.sub of all
occurrences; no DOTALL, so `.` excludes `\n`), then
`remove_last_closing_bracket` uses `\}\s*\)\s*;?\s*$` with DOTALL and
`count=1`.  `find_return_text` uses
`return\s*([a-zA-Z0-9_]+)\s*;?\s*\}\s*\);?` with DOTALL (re.search). -/

/-- Matcher for `@class\s+(\w+)` at the current position (greedy `\s+`
and `\w+` over disjoint classes). -/
def tryMatchClass (s : Chars) : Option Chars :=
  if chPfx (("@class").data) s then
    let t0 := s.drop 6
    if (t0.takeWhile spaceB).isEmpty then none
    else
      let idt := (t0.dropWhile spaceB).takeWhile wordB
      if idt.isEmpty then none else some idt
  else none

/-- `re.search(r"@class\s+(\w+)", s)`: leftmost class-marker name. -/
def searchClassName : Chars → Option Chars
  | [] => tryMatchClass []
  | s@(_ :: t) =>
    match tryMatchClass s with
    | some n => some n
    | none => searchClassName t

/-- Lazy `(.*?)extend\(` body: shortest run of non-`\n` characters
followed by the literal `extend(`.  Returns (group, rest after the
literal). -/
def lazyDotExtend (acc : Chars) : Chars → Option (Chars × Chars)
  | [] => none
  | s@(x :: t) =>
    if chPfx (("extend(").data) s then some (acc.reverse, s.drop 7)
    else if x == '\n' then none
    else lazyDotExtend (x :: acc) t

/-- Matcher for `return\s+?Backbone\.(.*?)extend\(` at the current
position.  The lazy `\s+?` before the literal `Backbone.` is equivalent
to the full whitespace run (the literal starts with a non-space). -/
def tryMatchRB (s : Chars) : Option (Chars × Chars) :=
  if chPfx (("return").data) s then
    let t0 := s.drop 6
    if (t0.takeWhile spaceB).isEmpty then none
    else
      let t1 := t0.dropWhile spaceB
      if chPfx (("Backbone.").data) t1 then lazyDotExtend [] (t1.drop 9)
      else none
  else none

/-- `re.search` guard for the `return ... Backbone....extend(` pattern. -/
def searchRB : Chars → Bool
  | [] => (tryMatchRB []).isSome
  | s@(_ :: t) => (tryMatchRB s).isSome || searchRB t

/-- `re.sub` of every occurrence of the pattern with
`var <name> = Backbone.\1extend(` (fuel-driven scan; each match consumes
at least 23 characters). -/
def subAllRB (cname : Chars) : Nat → Chars → Chars
  | 0, s => s
  | _ + 1, [] => []
  | f + 1, s@(x :: t) =>
    match tryMatchRB s with
    | some (grp, rest) =>
      (("var ").data ++ cname ++ (" = Backbone.").data ++ grp
        ++ ("extend(").data) ++ subAllRB cname f rest
    | none => x :: subAllRB cname f t

/-- Acceptance test for `\}\s*\)\s*;?\s*$` at the current position.  With
greedy `\s*` the match always extends to the true end of the string, so
the position accepts iff nothing but the pattern remains. -/
def acceptRLB (s : Chars) : Bool :=
  match s with
  | '\x7d' :: r =>
    match r.dropWhile spaceB with
    | ')' :: r2 =>
      let r3 := r2.dropWhile spaceB
      let r4 := match r3 with
        | ';' :: r' => r'
        | _ => r3
      (r4.dropWhile spaceB).isEmpty
    | _ => false
  | _ => false

/-- Scan for the leftmost accepting position; on success everything from
that position to the end of the string is the match. -/
def rlbGo : Chars → Option Chars
  | [] => none
  | s@(x :: t) =>
    if acceptRLB s then some []
    else
      match rlbGo t with
      | some kept => some (x :: kept)
      | none => none

/-- `remove_last_closing_bracket` from the source: `re.sub(pattern, "",
text, count=1)`. -/
def remove_last_closing_bracket (text : Chars) : Chars :=
  match rlbGo text with
  | some kept => kept
  | none => text

structure StdResult where
  text : Chars
  export_name : Option Chars
deriving DecidableEq

/-- `standardize_return_text` from the source.  Note: the class name is
reported as `export_name` whenever the `@class` marker is found, even if
the `return Backbone....extend(` pattern is absent (in which case the
text is left unchanged). -/
def standardize_return_text (js_text : Chars) : StdResult :=
  match searchClassName js_text with
  | none => ⟨js_text, none⟩
  | some cname =>
    if searchRB js_text then
      ⟨remove_last_closing_bracket (subAllRB cname js_text.length js_text),
        some cname⟩
    else ⟨js_text, some cname⟩

/-- Matcher for the optional semicolon `;?` (greedy: taken when present). -/
def munchSemi : Chars → Chars × Chars
  | ';' :: r => ([';'], r)
  | s => ([], s)

/-- Matcher for `return\s*([a-zA-Z0-9_]+)\s*;?\s*\}\s*\);?` at the
current position.  All adjacent pieces range over disjoint character
classes, so greedy matching is deterministic.  Returns (matched span,
identifier group, rest after the match); the span is rebuilt from its
parts, which equals the consumed substring. -/
def tryMatchReturnPat (s : Chars) : Option (Chars × Chars × Chars) :=
  if chPfx (("return").data) s then
    let t0 := List.drop 6 s
    let ws1 := t0.takeWhile spaceB
    let s1 := t0.dropWhile spaceB
    let idt := s1.takeWhile wordB
    if idt.isEmpty then none
    else
      let s2 := s1.dropWhile wordB
      let ws2 := s2.takeWhile spaceB
      let s3 := s2.dropWhile spaceB
      let os1 := munchSemi s3
      let ws3 := os1.2.takeWhile spaceB
      match os1.2.dropWhile spaceB with
      | '\x7d' :: t2 =>
        let ws4 := t2.takeWhile spaceB
        match t2.dropWhile spaceB with
        | ')' :: t3 =>
          let os2 := munchSemi t3
          some ((("return").data ++ ws1 ++ idt ++ ws2 ++ os1.1 ++ ws3
            ++ '\x7d' :: (ws4 ++ ')' :: os2.1), idt, os2.2))
        | _ => none
      | _ => none
  else none

/-- `re.search` scan for the return pattern (leftmost match). -/
def searchReturnPat : Chars → Option (Chars × Chars)
  | [] =>
    match tryMatchReturnPat [] with
    | some (m, idt, _) => some (m, idt)
    | none => none
  | s@(_ :: t) =>
    match tryMatchReturnPat s with
    | some (m, idt, _) => some (m, idt)
    | none => searchReturnPat t

/-- Result of `find_return_text` (`fmatch` embeds the dict key
`"match"`). -/
structure FooterResult where
  fmatch : Option Chars
  export_name : Chars
deriving DecidableEq

/-- `find_return_text` from the source: standardize, search for the
trailing-return pattern in the standardized text (which is then
discarded), fall back to the class name. -/
def find_return_text (js_text : Chars) : Option FooterResult :=
  let std := standardize_return_text js_text
  match searchReturnPat std.text with
  | some (m, idt) => some ⟨some m, idt⟩
  | none =>
    match std.export_name with
    | some n => some ⟨none, n⟩
    | none => none

/-- `write_export_statement` from the source. -/
def write_export_statement (export_name : Chars) : Chars :=
  ("export default ").data ++ export_name ++ (";\n").data

/-! ### Orchestrator -/

def headerErr : Chars := ("No require/define statement found").data
def footerErr : Chars := ("No return statement found").data

structure ConvProps where
  original_text : Chars
  dependencies : List Chars
  parameters : List Chars
  export_name : Option Chars
  new_text : Chars
  errors : List Chars
  ignored_dependencies : List (Option Chars)
  ignored_parameters : List (Option Chars)
deriving DecidableEq

/-- The footer half of `require_to_import_export`: search for the return
statement in the current `new_text`; on success remove the matched span
(if any) and append the export statement, otherwise record the error. -/
def footerStage (base : ConvProps) : ConvProps :=
  match find_return_text base.new_text with
  | none => { base with errors := base.errors ++ [footerErr] }
  | some r =>
    let nt :=
      match r.fmatch with
      | some m => pyReplace m base.new_text
      | none => base.new_text
    { base with
        export_name := some r.export_name,
        new_text := nt ++ write_export_statement r.export_name }

/-- `require_to_import_export` from the source: header stage (remove the
define span, prepend synthesized imports) then footer stage. -/
def require_to_import_export (js_text : Chars) : ConvProps :=
  match find_require_define_text js_text with
  | none =>
    footerStage
      { original_text := js_text, dependencies := [], parameters := [],
        export_name := none, new_text := js_text, errors := [headerErr],
        ignored_dependencies := [], ignored_parameters := [] }
  | some d =>
    let stripped := pyReplace d.dmatch js_text
    let imp := write_import_statements d.dependencies d.parameters
    footerStage
      { original_text := js_text, dependencies := d.dependencies,
        parameters := d.parameters, export_name := none,
        new_text := imp.text ++ stripped, errors := [],
        ignored_dependencies := imp.ignored_dependencies,
        ignored_parameters := imp.ignored_parameters }

/-! ### Concrete sample inputs used by the claim evaluations -/

/-- A file with an `@class Widget` marker whose body ends in
`return Backbone.Model.extend({...});` followed by the wrapper tail. -/
def c1Input : Chars :=
  ("/* @class Widget */\ndefine([\"a.js\"], function (B) \x7b\nreturn Backbone.Model.extend(\x7bx:1\x7d);\n\x7d);\n").data

/-- A headerless file with an `@class` marker and a
`return Backbone....extend(` tail; its first-pass output still matches
the footer patterns. -/
def c8Input : Chars :=
  ("@class W\nreturn Backbone.Model.extend(\x7b\x7d);").data

/-- A file with no header, no return pattern and no Backbone tail, but
with a bare `@class` marker. -/
def c4Marker : Chars := ("/* @class Foo */ hi").data

/-- The two-character comment marker `//`. -/
def slashes : Chars := ['/', '/']

section BasicLemmas

theorem chPfx_iff (p l : Chars) : chPfx p l = true ↔ ∃ t, l = p ++ t := by
  induction p generalizing l with
  | nil => simp [chPfx]
  | cons x ps ih =>
    cases l with
    | nil => simp [chPfx]
    | cons y ls =>
      simp only [chPfx, Bool.and_eq_true, beq_iff_eq, ih, List.cons_append]
      constructor
      · rintro ⟨rfl, t, rfl⟩; exact ⟨t, rfl⟩
      · rintro ⟨t, h⟩
        cases h
        exact ⟨rfl, t, rfl⟩

theorem chPfx_self_append (p t : Chars) : chPfx p (p ++ t) = true :=
  (chPfx_iff p (p ++ t)).mpr ⟨t, rfl⟩

theorem chPfx_drop_eq {p l : Chars} (h : chPfx p l = true) :
    l = p ++ l.drop p.length := by
  obtain ⟨t, rfl⟩ := (chPfx_iff p l).mp h
  rw [List.drop_left]

theorem chPfx_append_left {p q l : Chars} (h : chPfx (p ++ q) l = true) :
    chPfx p l = true := by
  obtain ⟨t, rfl⟩ := (chPfx_iff (p ++ q) l).mp h
  exact (chPfx_iff p _).mpr ⟨q ++ t, by simp⟩

theorem chPfx_of_long {p x y : Chars} (hlen : p.length ≤ x.length)
    (h : chPfx p (x ++ y) = true) : chPfx p x = true := by
  induction p generalizing x with
  | nil => simp [chPfx]
  | cons a ps ih =>
    cases x with
    | nil => simp at hlen
    | cons b xs =>
      simp only [List.cons_append, chPfx, Bool.and_eq_true] at h ⊢
      exact ⟨h.1, ih (Nat.le_of_succ_le_succ hlen) h.2⟩

theorem containsSub_tail {p : Chars} {x : Char} {l : Chars}
    (h : containsSub p (x :: l) = false) : containsSub p l = false := by
  simp only [containsSub, Bool.or_eq_false_iff] at h
  exact h.2

theorem containsSub_head {p l : Chars} (h : containsSub p l = false) :
    chPfx p l = false := by
  cases l with
  | nil => simpa [containsSub] using h
  | cons x t =>
    simp only [containsSub, Bool.or_eq_false_iff] at h
    exact h.1

theorem containsSub_drop {p l : Chars} (h : containsSub p l = false) :
    ∀ i, chPfx p (l.drop i) = false := by
  intro i
  induction i generalizing l with
  | zero => simpa using containsSub_head h
  | succ j ih =>
    cases l with
    | nil => simpa [List.drop] using containsSub_head h
    | cons x t => simpa [List.drop_succ_cons] using ih (containsSub_tail h)

theorem containsSub_of_drop_chPfx {p l : Chars} {i : Nat}
    (h : chPfx p (l.drop i) = true) : containsSub p l = true := by
  by_contra hc
  have := containsSub_drop (Bool.eq_false_iff.mpr hc) i
  rw [this] at h
  exact Bool.false_ne_true h

theorem mem_takeWhile_pred {p : Char → Bool} {l : Chars} {x : Char}
    (h : x ∈ l.takeWhile p) : p x = true := by
  induction l with
  | nil => simp [List.takeWhile] at h
  | cons y t ih =>
    rw [List.takeWhile] at h
    cases hy : p y with
    | false => simp [hy] at h
    | true =>
      rw [hy] at h
      rcases List.mem_cons.mp h with rfl | h2
      · exact hy
      · exact ih h2

theorem replGo_id {pat l : Chars} (h : containsSub pat l = false) :
    ∀ fuel, replGo pat fuel l = l := by
  intro fuel
  induction fuel generalizing l with
  | zero => rfl
  | succ f ih =>
    have hh : chPfx pat l = false := containsSub_head h
    cases l with
    | nil => simp [replGo, hh]
    | cons x t =>
      simp only [replGo, hh, Bool.and_false]
      rw [if_neg Bool.false_ne_true, ih (containsSub_tail h)]

theorem replGo_shape {pat a d : Chars} (hpat : pat ≠ [])
    (h1 : ∀ i, i < a.length → chPfx pat ((a ++ pat ++ d).drop i) = false)
    (hd : containsSub pat d = false) :
    ∀ fuel, (a ++ pat ++ d).length ≤ fuel → replGo pat fuel (a ++ pat ++ d) = a ++ d := by
  induction a with
  | nil =>
    intro fuel hfuel
    simp only [List.nil_append, List.length_append] at hfuel ⊢
    have hlen : 0 < pat.length := List.length_pos.mpr hpat
    cases fuel with
    | zero => omega
    | succ f =>
      have hp : chPfx pat (pat ++ d) = true := chPfx_self_append pat d
      have hne : pat.isEmpty = false := by
        cases pat with
        | nil => exact absurd rfl hpat
        | cons _ _ => rfl
      simp only [replGo, hne, hp, Bool.not_false, Bool.true_and, if_pos rfl]
      rw [List.drop_left]
      exact replGo_id hd f
  | cons x a' ih =>
    intro fuel hfuel
    cases fuel with
    | zero => simp at hfuel
    | succ f =>
      have h0 : chPfx pat (x :: (a' ++ pat ++ d)) = false := by
        have := h1 0 (by simp)
        simpa [List.cons_append] using this
      simp only [List.cons_append, replGo]
      rw [h0, Bool.and_false, if_neg Bool.false_ne_true]
      have h1' : ∀ i, i < a'.length → chPfx pat ((a' ++ pat ++ d).drop i) = false := by
        intro i hi
        have := h1 (i + 1) (by simpa using Nat.succ_lt_succ hi)
        simpa [List.drop_succ_cons] using this
      have hf : (a' ++ pat ++ d).length ≤ f := by
        simp only [List.cons_append, List.length_cons] at hfuel
        simp only [List.length_append] at hfuel ⊢
        omega
      rw [ih h1' f hf]

theorem pyReplace_shape {pat a d : Chars} (hpat : pat ≠ [])
    (h1 : ∀ i, i < a.length → chPfx pat ((a ++ pat ++ d).drop i) = false)
    (hd : containsSub pat d = false) :
    pyReplace pat (a ++ pat ++ d) = a ++ d :=
  replGo_shape hpat h1 hd _ (Nat.le_refl _)

end BasicLemmas

section CommentLemmas


theorem breakAtTerm_of {b : Chars} {c : Char} (d : Chars)
    (hb : ∀ x ∈ b, x ≠ '\n' ∧ x ≠ '\r') (hc : c = '\n' ∨ c = '\r') :
    breakAtTerm (b ++ c :: d) = some (b, c, d) := by
  induction b with
  | nil =>
    rcases hc with rfl | rfl <;> simp [breakAtTerm]
  | cons x b' ih =>
    have hx := hb x (by simp)
    have hrec := ih (fun y hy => hb y (by simp [hy]))
    simp only [List.cons_append, breakAtTerm]
    rw [if_neg]
    · simp only [List.append_eq, hrec]
    · simp [hx.1, hx.2]

theorem fcGo_nomatch {l : Chars} (h : containsSub slashes l = false) :
    ∀ fuel, fcGo fuel l = [] := by
  intro fuel
  induction fuel generalizing l with
  | zero => rfl
  | succ f ih =>
    match l with
    | [] => rfl
    | [_] => rfl
    | x :: y :: rest =>
      have hxy : (x == '/' && y == '/') = false := by
        have := containsSub_head h
        simp only [slashes, chPfx, Bool.and_eq_true, beq_iff_eq] at this
        by_contra hcon
        rw [Bool.not_eq_false, Bool.and_eq_true, beq_iff_eq, beq_iff_eq] at hcon
        simp [hcon.1, hcon.2, chPfx] at this
      simp only [fcGo, hxy]
      rw [if_neg Bool.false_ne_true]
      exact ih (containsSub_tail h)

theorem fcGo_skip {rest w : Chars} (hrest : rest = '/' :: w) :
    ∀ a fuel, containsSub slashes (a ++ ['/']) = false →
      (a ++ rest).length ≤ fuel →
      fcGo fuel (a ++ rest) = fcGo (fuel - a.length) rest := by
  intro a
  induction a with
  | nil => intro fuel _ _; simp
  | cons x a' ih =>
    intro fuel ha hfuel
    cases fuel with
    | zero => simp at hfuel
    | succ f =>
      have hfalse : chPfx slashes ((x :: a') ++ ['/']) = false := containsSub_head ha
      have hrec : fcGo f (a' ++ rest) = fcGo (f - a'.length) rest := by
        apply ih f (containsSub_tail (by simpa [List.cons_append] using ha))
        simp only [List.cons_append, List.length_cons] at hfuel
        simp only [List.length_append]
        simp only [List.length_append] at hfuel
        omega
      have hgoal : fcGo (f + 1) ((x :: a') ++ rest) = fcGo f (a' ++ rest) := by
        cases a' with
        | nil =>
          subst hrest
          have hx : (x == '/') = false := by
            by_contra hcon
            rw [Bool.not_eq_false, beq_iff_eq] at hcon
            subst hcon
            simp [slashes, chPfx, List.cons_append] at hfalse
          simp only [List.nil_append, List.cons_append, fcGo, hx, Bool.false_and]
          rw [if_neg Bool.false_ne_true]
        | cons z a'' =>
          have hxz : (x == '/' && z == '/') = false := by
            by_contra hcon
            rw [Bool.not_eq_false, Bool.and_eq_true, beq_iff_eq, beq_iff_eq] at hcon
            obtain ⟨rfl, rfl⟩ := hcon
            simp [slashes, chPfx, List.cons_append] at hfalse
          simp only [List.cons_append, fcGo, hxz]
          rw [if_neg Bool.false_ne_true]
          simp only [List.append_eq, List.cons_append]
      calc fcGo (f + 1) ((x :: a') ++ rest) = fcGo f (a' ++ rest) := hgoal
        _ = fcGo (f - a'.length) rest := hrec
        _ = fcGo (f + 1 - (x :: a').length) rest := by
            congr 1
            simp only [List.length_cons]
            omega

/-- Under the single-comment hypotheses, the comment scanner finds exactly
the run from `//` through the first terminator. -/
theorem findallComments_single {a b d : Chars} {c : Char}
    (hc : c = '\n' ∨ c = '\r') (hb : ∀ x ∈ b, x ≠ '\n' ∧ x ≠ '\r')
    (ha : containsSub slashes (a ++ ['/']) = false)
    (hd : containsSub slashes d = false) :
    findallComments (a ++ '/' :: '/' :: (b ++ c :: d)) =
      ['/' :: '/' :: (b ++ [c])] := by
  have hskip := @fcGo_skip ('/' :: '/' :: (b ++ c :: d)) ('/' :: (b ++ c :: d)) rfl
    a (a ++ '/' :: '/' :: (b ++ c :: d)).length ha (Nat.le_refl _)
  rw [findallComments, hskip]
  have hlen : (a ++ '/' :: '/' :: (b ++ c :: d)).length - a.length
      = ('/' :: '/' :: (b ++ c :: d)).length := by
    simp [List.length_append]
  rw [hlen]
  have hbreak := breakAtTerm_of d hb hc
  simp only [List.length_cons, fcGo, beq_self_eq_true, Bool.and_self, hbreak, if_true]
  rw [fcGo_nomatch hd]

end CommentLemmas

section MoreSubLemmas

theorem containsSub_append_left {p q l : Chars}
    (h : containsSub (p ++ q) l = true) : containsSub p l = true := by
  induction l with
  | nil =>
    simp only [containsSub] at h ⊢
    exact chPfx_append_left h
  | cons x t ih =>
    simp only [containsSub, Bool.or_eq_true] at h ⊢
    rcases h with h | h
    · exact Or.inl (chPfx_append_left h)
    · exact Or.inr (ih h)

end MoreSubLemmas

section CommentRemovalTop

/-- For a text holding a single `//` marker, `remove_comments` removes the
whole run from the marker through the first following line terminator,
terminator included. -/
theorem remove_comments_single {a b d : Chars} {c : Char}
    (hc : c = '\n' ∨ c = '\r') (hb : ∀ x ∈ b, x ≠ '\n' ∧ x ≠ '\r')
    (ha : containsSub slashes (a ++ ['/']) = false)
    (hd : containsSub slashes d = false) :
    remove_comments (a ++ '/' :: '/' :: (b ++ c :: d)) = a ++ d := by
  have hfind := findallComments_single hc hb ha hd
  rw [remove_comments, hfind]
  simp only [List.foldl_cons, List.foldl_nil]
  have hm : a ++ '/' :: '/' :: (b ++ c :: d)
      = a ++ ('/' :: '/' :: (b ++ [c])) ++ d := by simp
  rw [hm]
  apply pyReplace_shape
  · simp
  · intro i hi
    by_contra hcon
    rw [Bool.not_eq_false] at hcon
    have hmslash : ('/' :: '/' :: (b ++ [c]) : Chars) = slashes ++ (b ++ [c]) := rfl
    rw [hmslash] at hcon
    have h2 := chPfx_append_left hcon
    have hsplit : a ++ (slashes ++ (b ++ [c])) ++ d
        = (a ++ ['/']) ++ ('/' :: (b ++ [c] ++ d)) := by
      simp [slashes]
    rw [hsplit] at h2
    rw [List.drop_append_of_le_length (by simp; omega)] at h2
    have hlong : chPfx slashes ((a ++ ['/']).drop i) = true := by
      apply chPfx_of_long _ h2
      simp only [slashes, List.length_cons, List.length_nil, List.length_drop,
        List.length_append]
      omega
    have hct := containsSub_of_drop_chPfx hlong
    rw [ha] at hct
    exact Bool.false_ne_true hct
  · by_contra hcon
    rw [Bool.not_eq_false] at hcon
    have hmslash : ('/' :: '/' :: (b ++ [c]) : Chars) = slashes ++ (b ++ [c]) := rfl
    rw [hmslash] at hcon
    have hct := containsSub_append_left hcon
    rw [hd] at hct
    exact Bool.false_ne_true hct

end CommentRemovalTop

section ReturnPatternLemmas

/-- The structural content of the regex
`return\s*([a-zA-Z0-9_]+)\s*;?\s*\}\s*\);?`: a span matches it exactly
when it splits into the literal `return`, whitespace, a nonempty
identifier, whitespace, an optional semicolon, whitespace, `}`,
whitespace, `)` and an optional final semicolon. -/
def spanShapeReturn (m idt : Chars) : Prop :=
  ∃ ws1 ws2 os1 ws3 ws4 os2 : Chars,
    m = ("return").data ++ ws1 ++ idt ++ ws2 ++ os1 ++ ws3
      ++ '\x7d' :: (ws4 ++ ')' :: os2) ∧
    (∀ x ∈ ws1, spaceB x = true) ∧ (∀ x ∈ ws2, spaceB x = true) ∧
    (∀ x ∈ ws3, spaceB x = true) ∧ (∀ x ∈ ws4, spaceB x = true) ∧
    idt ≠ [] ∧ (∀ x ∈ idt, wordB x = true) ∧
    (os1 = [] ∨ os1 = [';']) ∧ (os2 = [] ∨ os2 = [';'])

theorem munchSemi_append (s : Chars) :
    (munchSemi s).1 ++ (munchSemi s).2 = s := by
  unfold munchSemi
  split
  · rfl
  · rfl

theorem munchSemi_or (s : Chars) :
    (munchSemi s).1 = [] ∨ (munchSemi s).1 = [';'] := by
  unfold munchSemi
  split
  · exact Or.inr rfl
  · exact Or.inl rfl

theorem tryMatchReturnPat_shape {s m idt rest : Chars}
    (h : tryMatchReturnPat s = some (m, idt, rest)) :
    s = m ++ rest ∧ spanShapeReturn m idt := by
  simp only [tryMatchReturnPat] at h
  split at h
  case isFalse => exact absurd h (by simp)
  case isTrue hp =>
    split at h
    case isTrue => exact absurd h (by simp)
    case isFalse hid =>
      set t0 := List.drop 6 s with ht0
      set ws1 := t0.takeWhile spaceB with hws1
      set s1 := t0.dropWhile spaceB with hs1
      set idt0 := s1.takeWhile wordB with hidt0
      set s2 := s1.dropWhile wordB with hs2
      set ws2 := s2.takeWhile spaceB with hws2
      set s3 := s2.dropWhile spaceB with hs3
      set q1 := munchSemi s3 with hq1
      set ws3 := q1.2.takeWhile spaceB with hws3
      split at h
      case h_2 => exact absurd h (by simp)
      case h_1 t2 heq1 =>
        set ws4 := t2.takeWhile spaceB with hws4
        split at h
        case h_2 => exact absurd h (by simp)
        case h_1 t3 heq2 =>
          set q2 := munchSemi t3 with hq2
          rw [Option.some.injEq, Prod.mk.injEq, Prod.mk.injEq] at h
          obtain ⟨hm, hidt, hrest⟩ := h
          subst hm hidt hrest
          have e0 : s = ("return").data ++ t0 := chPfx_drop_eq hp
          have e1 : t0 = ws1 ++ s1 := by
            rw [hws1, hs1, List.takeWhile_append_dropWhile]
          have e2 : s1 = idt0 ++ s2 := by
            rw [hidt0, hs2, List.takeWhile_append_dropWhile]
          have e3 : s2 = ws2 ++ s3 := by
            rw [hws2, hs3, List.takeWhile_append_dropWhile]
          have e4 : s3 = q1.1 ++ q1.2 := by
            rw [hq1, munchSemi_append]
          have e5 : q1.2 = ws3 ++ ('\x7d' :: t2) := by
            rw [← heq1, hws3, List.takeWhile_append_dropWhile]
          have e6 : t2 = ws4 ++ (')' :: t3) := by
            rw [← heq2, hws4, List.takeWhile_append_dropWhile]
          have e7 : t3 = q2.1 ++ q2.2 := by
            rw [hq2, munchSemi_append]
          constructor
          · rw [e0, e1, e2, e3, e4, e5, e6, e7]
            simp [List.append_assoc]
          · refine ⟨ws1, ws2, q1.1, ws3, ws4, q2.1, rfl, ?_, ?_, ?_, ?_, ?_, ?_, ?_, ?_⟩
            · intro x hx
              rw [hws1] at hx
              exact mem_takeWhile_pred hx
            · intro x hx
              rw [hws2] at hx
              exact mem_takeWhile_pred hx
            · intro x hx
              rw [hws3] at hx
              exact mem_takeWhile_pred hx
            · intro x hx
              rw [hws4] at hx
              exact mem_takeWhile_pred hx
            · intro hcon
              apply hid
              rw [hidt0] at hcon ⊢
              rw [hcon]
              rfl
            · intro x hx
              rw [hidt0] at hx
              exact mem_takeWhile_pred hx
            · rw [hq1]
              exact munchSemi_or s3
            · rw [hq2]
              exact munchSemi_or t3

theorem searchReturnPat_decomp {s : Chars} {m idt : Chars}
    (h : searchReturnPat s = some (m, idt)) :
    ∃ a rest, s = a ++ m ++ rest ∧
      tryMatchReturnPat (m ++ rest) = some (m, idt, rest) ∧
      ∀ i, i < a.length → tryMatchReturnPat (s.drop i) = none := by
  induction s with
  | nil =>
    rw [searchReturnPat] at h
    cases ht : tryMatchReturnPat [] with
    | none => rw [ht] at h; exact absurd h (by simp)
    | some v =>
      obtain ⟨mv, iv, rv⟩ := v
      rw [ht] at h
      rw [Option.some.injEq, Prod.mk.injEq] at h
      obtain ⟨rfl, rfl⟩ := h
      obtain ⟨hsplit, _⟩ := tryMatchReturnPat_shape ht
      refine ⟨[], rv, by simpa using hsplit, ?_, ?_⟩
      · rw [← hsplit]
        exact ht
      · intro i hi
        simp at hi
  | cons x t ih =>
    rw [searchReturnPat] at h
    cases ht : tryMatchReturnPat (x :: t) with
    | some v =>
      obtain ⟨mv, iv, rv⟩ := v
      rw [ht] at h
      rw [Option.some.injEq, Prod.mk.injEq] at h
      obtain ⟨rfl, rfl⟩ := h
      obtain ⟨hsplit, _⟩ := tryMatchReturnPat_shape ht
      refine ⟨[], rv, by simpa using hsplit, ?_, ?_⟩
      · rw [← hsplit]
        exact ht
      · intro i hi
        simp at hi
    | none =>
      rw [ht] at h
      obtain ⟨a', rest, heq, hmatch, hmin⟩ := ih h
      refine ⟨x :: a', rest, by simp [heq], hmatch, ?_⟩
      intro i hi
      cases i with
      | zero => simpa using ht
      | succ j =>
        rw [List.drop_succ_cons]
        exact hmin j (by simpa using hi)

end ReturnPatternLemmas

section OrchestratorLemmas

/-- When both extractors fail the orchestrator returns the input text
untouched with exactly the two diagnostics. -/
theorem convert_none_none {t : Chars} (h1 : find_require_define_text t = none)
    (h2 : find_return_text t = none) :
    require_to_import_export t =
      ⟨t, [], [], none, t, [headerErr, footerErr], [], []⟩ := by
  unfold require_to_import_export
  rw [h1]
  unfold footerStage
  simp only []
  rw [h2]
  rfl

theorem convert_header_none {t : Chars}
    (h1 : find_require_define_text t = none) :
    headerErr ∈ (require_to_import_export t).errors ∧
    (require_to_import_export t).dependencies = [] ∧
    (require_to_import_export t).parameters = [] ∧
    (require_to_import_export t).ignored_dependencies = [] ∧
    (require_to_import_export t).ignored_parameters = [] := by
  unfold require_to_import_export
  rw [h1]
  unfold footerStage
  simp only []
  cases hf : find_return_text t with
  | none => simp
  | some r => simp

end OrchestratorLemmas

section HeaderScanLemmas

theorem tryMatchHeader_none_of_no_define {s : Chars}
    (h : chPfx (("define").data) s = false) : tryMatchHeader s = none := by
  unfold tryMatchHeader
  rw [h]
  simp

theorem searchHeader_none {s : Chars}
    (h : ∀ i, tryMatchHeader (s.drop i) = none) : searchHeader s = none := by
  induction s with
  | nil =>
    rw [searchHeader]
    have := h 0
    simp only [List.drop] at this
    rw [this]
  | cons x t ih =>
    rw [searchHeader]
    have h0 := h 0
    simp only [List.drop] at h0
    rw [h0]
    apply ih
    intro i
    have := h (i + 1)
    rwa [List.drop_succ_cons] at this

end HeaderScanLemmas

section FooterStageLemmas

/-- Field bookkeeping of `footerStage` over a base record with no export
name yet: either the footer error is appended and the export name stays
absent, or the errors are untouched and some export name is set. -/
theorem footerStage_fields (orig nt : Chars) (errs : List Chars)
    (deps params : List Chars) (ideps iparams : List (Option Chars)) :
    (footerStage ⟨orig, deps, params, none, nt, errs, ideps, iparams⟩).original_text = orig ∧
    (((footerStage ⟨orig, deps, params, none, nt, errs, ideps, iparams⟩).errors
          = errs ++ [footerErr] ∧
        (footerStage ⟨orig, deps, params, none, nt, errs, ideps, iparams⟩).export_name
          = none) ∨
      ((footerStage ⟨orig, deps, params, none, nt, errs, ideps, iparams⟩).errors = errs ∧
        ∃ n, (footerStage ⟨orig, deps, params, none, nt, errs, ideps, iparams⟩).export_name
          = some n)) := by
  unfold footerStage
  simp only []
  cases hf : find_return_text nt with
  | none => exact ⟨rfl, Or.inl ⟨rfl, rfl⟩⟩
  | some r => exact ⟨rfl, Or.inr ⟨rfl, r.export_name, rfl⟩⟩

end FooterStageLemmas

/-! ## Claim theorems -/

/-- C1: evaluation at the failing input.  For a text carrying an `@class
Widget` marker and ending in `return Backbone.Model.extend({...});`
inside the wrapper tail, the conversion reports `exportName = "Widget"`
and the output ends with `export default Widget;` plus newline — but the
trailing `});` is not removed at all (its occurrence count is unchanged)
and the `return Backbone.Model.extend(` text survives verbatim, because
`require_to_import_export` discards the text rewritten inside
`find_return_text`.  The claim says the trailing `});` is removed exactly
once. -/
theorem c1_class_rewrite_not_applied :
    (require_to_import_export c1Input).export_name = some (("Widget").data) ∧
    (("export default Widget;\n").data).isSuffixOf
      (require_to_import_export c1Input).new_text = true ∧
    countSub (("\x7d);").data) (require_to_import_export c1Input).new_text
      = countSub (("\x7d);").data) c1Input ∧
    countSub (("\x7d);").data) c1Input = 2 ∧
    containsSub (("return Backbone.Model.extend(").data)
      (require_to_import_export c1Input).new_text = true := by
  decide

/-- C2: evaluation at the failing input.  For dependencies `["./A.js"]`
and parameters `["A", "B"]` the synthesizer emits the one import line for
`A`, but records `None` in `ignored_dependencies` (the value it has just
found missing) and records nothing in `ignored_parameters` — the claim
says `"B"` lands in `ignoredParameters` and `ignoredDependencies` stays
empty. -/
theorem c2_mismatch_records_none :
    write_import_statements [("./A.js").data] [("A").data, ("B").data] =
      ⟨("import A from \x27./A.js\x27;\n").data, [none], []⟩ ∧
    (write_import_statements [("./A.js").data]
        [("A").data, ("B").data]).ignored_parameters
      ≠ [some (("B").data)] := by
  decide

/-- C3: evaluation at a failing input.  For dependencies
`["./A.js", "./C.js"]` and parameters `["A"]` exactly one import line is
emitted, yet `ignored_dependencies` stays empty (the missing `None`
parameter is pushed onto `ignored_parameters` instead), so
`len(ignoredDependencies) + matched = 1 ≠ 2 = len(dependencyPaths)` and
symmetrically `len(ignoredParameters) + matched = 2 ≠ 1 =
len(parameterNames)`. -/
theorem c3_count_invariant_fails :
    (write_import_statements [("./A.js").data, ("./C.js").data]
        [("A").data]).text = ("import A from \x27./A.js\x27;\n").data ∧
    countSub (("import ").data)
      (write_import_statements [("./A.js").data, ("./C.js").data]
        [("A").data]).text = 1 ∧
    (write_import_statements [("./A.js").data, ("./C.js").data]
        [("A").data]).ignored_dependencies.length + 1
      ≠ ([("./A.js").data, ("./C.js").data] : List Chars).length ∧
    (write_import_statements [("./A.js").data, ("./C.js").data]
        [("A").data]).ignored_parameters.length + 1
      ≠ ([("A").data] : List Chars).length := by
  decide

/-- C4 counterexample: a text with no header, no return pattern and no
Backbone tail — but with a bare `@class Foo` marker — is converted to a
*different* text (an export line is appended) and the footer error is not
recorded, against the claim's `newText == rawText` and two-error
prediction. -/
theorem c4_marker_counterexample :
    find_require_define_text c4Marker = none ∧
    searchReturnPat c4Marker = none ∧
    searchRB c4Marker = false ∧
    (require_to_import_export c4Marker).new_text ≠ c4Marker ∧
    ¬ footerErr ∈ (require_to_import_export c4Marker).errors := by
  decide

/-- C4 (amended): when no header matches, no `@class` marker is present
and no trailing-return pattern matches, the conversion returns the input
unchanged and records both the header and the footer diagnostics. -/
theorem c4_roundtrip (t : Chars)
    (h1 : find_require_define_text t = none)
    (h2 : searchClassName t = none)
    (h3 : searchReturnPat t = none) :
    (require_to_import_export t).new_text = t ∧
    headerErr ∈ (require_to_import_export t).errors ∧
    footerErr ∈ (require_to_import_export t).errors := by
  have hstd : standardize_return_text t = ⟨t, none⟩ := by
    unfold standardize_return_text
    rw [h2]
  have hfr : find_return_text t = none := by
    simp [find_return_text, hstd, h3]
  rw [convert_none_none h1 hfr]
  refine ⟨rfl, ?_, ?_⟩ <;> simp

/-- C4 witness: a concrete input satisfying the hypotheses of
`c4_roundtrip`, with the conclusion instantiated. -/
theorem c4_roundtrip_witness :
    (find_require_define_text (("var x = 1;\n").data) = none ∧
      searchClassName (("var x = 1;\n").data) = none ∧
      searchReturnPat (("var x = 1;\n").data) = none) ∧
    ((require_to_import_export (("var x = 1;\n").data)).new_text
        = ("var x = 1;\n").data ∧
      headerErr ∈ (require_to_import_export (("var x = 1;\n").data)).errors ∧
      footerErr ∈ (require_to_import_export (("var x = 1;\n").data)).errors) :=
  ⟨⟨by decide, by decide, by decide⟩,
    c4_roundtrip _ (by decide) (by decide) (by decide)⟩

/-- C5 counterexample: the synthesized import block keeps the `.js`
extensions, so it differs from the claimed block with stripped
extensions. -/
theorem c5_extension_counterexample :
    (write_import_statements [("../A.js").data, ("./B.js").data]
        [("A").data, ("B").data]).text
      ≠ ("import A from \x27../A\x27;\nimport B from \x27./B\x27;\n").data := by
  decide

/-- C5 (amended): for dependencies `["../A.js", "./B.js"]` and parameters
`["A", "B"]` the import block is exactly `import A from '../A.js';` then
`import B from './B.js';` in dependency order, the `.js` extension
retained; with a `text!` prefix on the second dependency, the prefix is
dropped from the emitted path while the parameter name is unaffected, and
no entry is recorded in either ignored list. -/
theorem c5_import_block :
    (write_import_statements [("../A.js").data, ("./B.js").data]
        [("A").data, ("B").data]).text
      = ("import A from \x27../A.js\x27;\nimport B from \x27./B.js\x27;\n").data ∧
    write_import_statements [("../A.js").data, ("text!./B.js").data]
        [("A").data, ("B").data]
      = ⟨("import A from \x27../A.js\x27;\nimport B from \x27./B.js\x27;\n").data,
          [], []⟩ := by
  decide

/-- C6 counterexample: `find_return_text` returns a present span that is
*not* a suffix of the text — the pattern has no end anchor, so the span
is the leftmost occurrence, here followed by the trailing `X`. -/
theorem c6_trailing_counterexample :
    find_return_text (("return A;\x7d);X").data)
      = some ⟨some (("return A;\x7d);").data), ("A").data⟩ ∧
    (("return A;\x7d);").data).isSuffixOf (("return A;\x7d);X").data)
      = false := by
  decide

/-- C6 (amended): whenever the footer extractor returns a present span,
that span is the leftmost occurrence in the (possibly class-rewritten)
text of `return <identifier>` with optional `;`, then `}`, then `)` with
optional `;` — not necessarily at the end of the text — and that
occurrence's identifier is returned as the export name, taking precedence
over any class-rewrite candidate. -/
theorem c6_leftmost_span (t : Chars) (r : FooterResult) (m : Chars)
    (h1 : find_return_text t = some r) (h2 : r.fmatch = some m) :
    ∃ a rest, (standardize_return_text t).text = a ++ m ++ rest ∧
      spanShapeReturn m r.export_name ∧
      ∀ i, i < a.length →
        tryMatchReturnPat (((standardize_return_text t).text).drop i) = none := by
  simp only [find_return_text] at h1
  cases hs : searchReturnPat (standardize_return_text t).text with
  | none =>
    rw [hs] at h1
    cases he : (standardize_return_text t).export_name with
    | none =>
      rw [he] at h1
      exact absurd h1 (by simp)
    | some n =>
      rw [he] at h1
      rw [Option.some.injEq] at h1
      subst h1
      exact absurd h2 (by simp)
  | some v =>
    obtain ⟨mv, iv⟩ := v
    rw [hs] at h1
    rw [Option.some.injEq] at h1
    subst h1
    obtain rfl : mv = m := by simpa using h2
    obtain ⟨a, rest, heq, hmatch, hmin⟩ := searchReturnPat_decomp hs
    obtain ⟨_, hshape⟩ := tryMatchReturnPat_shape hmatch
    exact ⟨a, rest, heq, hshape, hmin⟩

/-- C6 witness: the amended statement instantiated at the counterexample
input. -/
theorem c6_leftmost_span_witness :
    (find_return_text (("return A;\x7d);X").data)
        = some ⟨some (("return A;\x7d);").data), ("A").data⟩) ∧
    (∃ a rest,
      (standardize_return_text (("return A;\x7d);X").data)).text
          = a ++ (("return A;\x7d);").data) ++ rest ∧
      spanShapeReturn (("return A;\x7d);").data)
        (FooterResult.export_name
          ⟨some (("return A;\x7d);").data), ("A").data⟩) ∧
      ∀ i, i < a.length →
        tryMatchReturnPat
          (((standardize_return_text (("return A;\x7d);X").data)).text).drop i)
          = none) :=
  ⟨by decide,
    c6_leftmost_span (("return A;\x7d);X").data)
      ⟨some (("return A;\x7d);").data), ("A").data⟩
      (("return A;\x7d);").data) (by decide) rfl⟩

/-- C7 counterexample: on `"a//b\nc"` the comment run is removed together
with its line terminator, so the result is `"ac"`, not the claimed
`"a\nc"` in which the terminator remains. -/
theorem c7_terminator_counterexample :
    remove_comments (("a//b\nc").data) = ("ac").data ∧
    ("ac").data ≠ ("a\nc").data := by
  decide

/-- C7 (amended): for a text whose only `//` marker starts the run
`// b <terminator>`, `remove_comments` removes the run from `//` through
the next line terminator *inclusive* — the terminator does not remain —
and leaves the rest of the text unchanged. -/
theorem c7_comment_removal (a b d : Chars) (c : Char)
    (hc : c = '\n' ∨ c = '\r') (hb : ∀ x ∈ b, x ≠ '\n' ∧ x ≠ '\r')
    (ha : containsSub slashes (a ++ ['/']) = false)
    (hd : containsSub slashes d = false) :
    remove_comments (a ++ '/' :: '/' :: (b ++ c :: d)) = a ++ d :=
  remove_comments_single hc hb ha hd

/-- C7 witness: the amended statement instantiated on `"x//y\nz"`. -/
theorem c7_comment_removal_witness :
    ((('\n' : Char) = '\n' ∨ ('\n' : Char) = '\r') ∧
      (∀ x ∈ ("y").data, x ≠ '\n' ∧ x ≠ '\r') ∧
      containsSub slashes (("x").data ++ ['/']) = false ∧
      containsSub slashes (("z").data) = false) ∧
    remove_comments (("x").data ++ '/' :: '/' :: (("y").data ++ '\n' :: ("z").data))
      = ("x").data ++ ("z").data :=
  ⟨⟨Or.inl rfl, by decide, by decide, by decide⟩,
    c7_comment_removal _ _ _ _ (Or.inl rfl) (by decide) (by decide) (by decide)⟩

/-- C8 counterexample: for a first-pass output that still contains the
`return Backbone....extend(` tail (the discarded class rewrite), the
second pass does record the header error, yet appends another export line
— its output differs from its input, against the claim's
`newText == rawText` on the second pass. -/
theorem c8_second_pass_counterexample :
    headerErr ∈ (require_to_import_export
        ((require_to_import_export c8Input).new_text)).errors ∧
    (require_to_import_export
        ((require_to_import_export c8Input).new_text)).new_text
      ≠ (require_to_import_export c8Input).new_text := by
  decide

/-- C8 (amended): re-running the conversion on a first-pass output whose
header pattern no longer matches records the header-not-found error; if
additionally no footer pattern matches in that output, the second pass
returns it unchanged.  (When a footer pattern survives — see the
counterexample — the second pass modifies the text again.) -/
theorem c8_second_pass (t : Chars)
    (h1 : find_require_define_text ((require_to_import_export t).new_text)
      = none) :
    headerErr ∈ (require_to_import_export
        ((require_to_import_export t).new_text)).errors ∧
    (find_return_text ((require_to_import_export t).new_text) = none →
      (require_to_import_export
          ((require_to_import_export t).new_text)).new_text
        = (require_to_import_export t).new_text) := by
  refine ⟨(convert_header_none h1).1, ?_⟩
  intro h2
  rw [convert_none_none h1 h2]

/-- C8 witness: the amended statement instantiated at a trivial file. -/
theorem c8_second_pass_witness :
    (find_require_define_text
        ((require_to_import_export (("q").data)).new_text) = none) ∧
    (headerErr ∈ (require_to_import_export
        ((require_to_import_export (("q").data)).new_text)).errors ∧
      (find_return_text ((require_to_import_export (("q").data)).new_text)
          = none →
        (require_to_import_export
            ((require_to_import_export (("q").data)).new_text)).new_text
          = (require_to_import_export (("q").data)).new_text)) :=
  ⟨by decide, c8_second_pass _ (by decide)⟩

/-- C9: for every input text the conversion produces a complete record:
the original text is preserved, the error list is one of the four
combinations of the two soft diagnostics (so the pipeline never aborts
and accumulates at most those), and the export name is absent exactly
when the footer diagnostic was recorded. -/
theorem c9_always_assembles (t : Chars) :
    (require_to_import_export t).original_text = t ∧
    ((require_to_import_export t).errors = [] ∨
      (require_to_import_export t).errors = [headerErr] ∨
      (require_to_import_export t).errors = [footerErr] ∨
      (require_to_import_export t).errors = [headerErr, footerErr]) ∧
    ((require_to_import_export t).export_name = none ↔
      footerErr ∈ (require_to_import_export t).errors) := by
  have hne : footerErr ≠ headerErr := by decide
  unfold require_to_import_export
  cases hd : find_require_define_text t with
  | none =>
    obtain ⟨ho, hc⟩ := footerStage_fields t t [headerErr] [] [] [] []
    refine ⟨ho, ?_, ?_⟩
    · rcases hc with ⟨he, _⟩ | ⟨he, _⟩
      · rw [he]
        right; right; right; rfl
      · rw [he]
        right; left; rfl
    · rcases hc with ⟨he, hx⟩ | ⟨he, n, hx⟩
      · rw [he, hx]
        simp
      · rw [he, hx]
        simp [hne]
  | some d =>
    simp only []
    obtain ⟨ho, hc⟩ := footerStage_fields t
      ((write_import_statements d.dependencies d.parameters).text
        ++ pyReplace d.dmatch t) [] d.dependencies d.parameters
      (write_import_statements d.dependencies d.parameters).ignored_dependencies
      (write_import_statements d.dependencies d.parameters).ignored_parameters
    refine ⟨ho, ?_, ?_⟩
    · rcases hc with ⟨he, _⟩ | ⟨he, _⟩
      · rw [he]
        right; right; left; rfl
      · rw [he]
        left; rfl
    · rcases hc with ⟨he, hx⟩ | ⟨he, n, hx⟩
      · rw [he, hx]
        simp
      · rw [he, hx]
        simp

/-- C10: for a wrapper invocation with an empty dependency array (or an
empty parameter list) — and no other `define` occurrence later in the
text — the header extractor returns absent, the conversion records the
header-not-found diagnostic, and no dependency, parameter or ignored-list
entry is produced (no imports are emitted). -/
theorem c10_empty_header_lists (rest1 rest2 : Chars)
    (h1 : containsSub (("define").data)
      (((("define([], function () \x7b").data ++ rest1)).drop 1) = false)
    (h2 : containsSub (("define").data)
      (((("define([\x27a\x27], function () \x7b").data ++ rest2)).drop 1) = false) :
    (find_require_define_text (("define([], function () \x7b").data ++ rest1)
        = none ∧
      headerErr ∈ (require_to_import_export
        (("define([], function () \x7b").data ++ rest1)).errors ∧
      (require_to_import_export
        (("define([], function () \x7b").data ++ rest1)).dependencies = [] ∧
      (require_to_import_export
        (("define([], function () \x7b").data ++ rest1)).parameters = [] ∧
      (require_to_import_export
        (("define([], function () \x7b").data ++ rest1)).ignored_dependencies
        = [] ∧
      (require_to_import_export
        (("define([], function () \x7b").data ++ rest1)).ignored_parameters
        = []) ∧
    (find_require_define_text
        (("define([\x27a\x27], function () \x7b").data ++ rest2) = none ∧
      headerErr ∈ (require_to_import_export
        (("define([\x27a\x27], function () \x7b").data ++ rest2)).errors ∧
      (require_to_import_export
        (("define([\x27a\x27], function () \x7b").data ++ rest2)).dependencies
        = [] ∧
      (require_to_import_export
        (("define([\x27a\x27], function () \x7b").data ++ rest2)).parameters
        = [] ∧
      (require_to_import_export
        (("define([\x27a\x27], function () \x7b").data
          ++ rest2)).ignored_dependencies = [] ∧
      (require_to_import_export
        (("define([\x27a\x27], function () \x7b").data
          ++ rest2)).ignored_parameters = []) := by
  have k1 : ∀ i, tryMatchHeader
      ((("define([], function () \x7b").data ++ rest1).drop i) = none := by
    intro i
    cases i with
    | zero => exact rfl
    | succ j =>
      have e : ((("define([], function () \x7b").data ++ rest1).drop 1).drop j
          = (("define([], function () \x7b").data ++ rest1).drop (j + 1) := by
        rw [List.drop_drop, Nat.add_comm]
      rw [← e]
      exact tryMatchHeader_none_of_no_define (containsSub_drop h1 j)
  have k2 : ∀ i, tryMatchHeader
      ((("define([\x27a\x27], function () \x7b").data ++ rest2).drop i)
      = none := by
    intro i
    cases i with
    | zero => exact rfl
    | succ j =>
      have e : ((("define([\x27a\x27], function () \x7b").data ++ rest2).drop 1).drop j
          = (("define([\x27a\x27], function () \x7b").data ++ rest2).drop (j + 1) := by
        rw [List.drop_drop, Nat.add_comm]
      rw [← e]
      exact tryMatchHeader_none_of_no_define (containsSub_drop h2 j)
  have f1 : find_require_define_text
      (("define([], function () \x7b").data ++ rest1) = none := by
    unfold find_require_define_text
    rw [searchHeader_none k1]
  have f2 : find_require_define_text
      (("define([\x27a\x27], function () \x7b").data ++ rest2) = none := by
    unfold find_require_define_text
    rw [searchHeader_none k2]
  obtain ⟨m1, d1, p1, i1, j1⟩ := convert_header_none f1
  obtain ⟨m2, d2, p2, i2, j2⟩ := convert_header_none f2
  exact ⟨⟨f1, m1, d1, p1, i1, j1⟩, ⟨f2, m2, d2, p2, i2, j2⟩⟩

/-- C10 witness: the statement instantiated with empty tails. -/
theorem c10_empty_header_lists_witness :
    (containsSub (("define").data)
        (((("define([], function () \x7b").data ++ ([] : Chars))).drop 1)
        = false ∧
      containsSub (("define").data)
        (((("define([\x27a\x27], function () \x7b").data ++ ([] : Chars))).drop 1)
        = false) ∧
    (find_require_define_text
        (("define([], function () \x7b").data ++ ([] : Chars)) = none ∧
      headerErr ∈ (require_to_import_export
        (("define([], function () \x7b").data ++ ([] : Chars))).errors) :=
  ⟨⟨by decide, by decide⟩,
    ((c10_empty_header_lists [] [] (by decide) (by decide)).1.1),
      ((c10_empty_header_lists [] [] (by decide) (by decide)).1.2.1)⟩

end ConvertEs6
